import Mathlib

/-!
Verification of the hybrid-retrieval core and the interface layer of the
RAG chatbot repository.

The repository ships the interface layer (Express routes and Socket.IO
handlers) in TypeScript; the retrieval core itself (the `full-backend`
hybrid BM25 + vector engine) is only documented, not present in the
source tree, so its data model and operations are modelled here directly
from the specification text (each such definition carries a doc comment
starting with `Modelled from the spec:`).  Embeddings and scores are
rationals; the BM25 scoring function, which uses the natural logarithm,
is stated over the reals.
-/

deriving instance DecidableEq for Except

namespace RagSpec

/-- Modelled from the spec: a retrievable text chunk with a stable unique
id, an owning document id, immutable text and a dense embedding vector
(floating-point numbers modelled as rationals).  The `content_hash` and
`metadata` fields of the spec are not used by any verified property and
are omitted. -/
structure Chunk where
  id : ℕ
  document_id : String
  text : String
  embedding : List ℚ
deriving DecidableEq, Repr

/-- Modelled from the spec: the per-chunk data handed to `ingest` by the
external document pipeline (`{text, embedding, metadata}` plus a
caller-generated fresh id); the owning document id is supplied
separately to `ingest_document`. -/
structure ChunkData where
  id : ℕ
  text : String
  embedding : List ℚ
deriving DecidableEq, Repr

/-- Modelled from the spec: error kinds of the core. -/
inductive Error where
  | DuplicateId
  | DimensionMismatch
  | InvalidArgument
  | NotFound
  | Internal
deriving DecidableEq, Repr

/-- Tokenizer helper: walks the character list, accumulating the current
(reversed) alphanumeric run, lowercasing as it goes, and emitting a token
at every non-alphanumeric boundary. -/
def tokenizeChars : List Char → List Char → List (List Char)
  | acc, [] => if acc.isEmpty then [] else [acc.reverse]
  | acc, ch :: rest =>
    if ch.isAlphanum then
      tokenizeChars (ch.toLower :: acc) rest
    else if acc.isEmpty then
      tokenizeChars [] rest
    else
      acc.reverse :: tokenizeChars [] rest

/-- Modelled from the spec: the tokenizer used identically at index time
and query time — lowercase, split on non-alphanumeric boundaries. -/
def tokenize (text : String) : List String :=
  (tokenizeChars [] text.toList).map List.asString

/-- Modelled from the spec: the joint state of the three leaf components.
`store` is the Chunk Store; `lex` is the Lexical Index, represented by
its per-chunk token lists (one entry per chunk — the entry's length is
the spec's per-chunk document length, and all postings, term/document
frequencies and corpus statistics are derived from these lists); `vec`
is the Vector Index (chunk id paired with its embedding). -/
structure CoreState where
  store : List Chunk
  lex : List (ℕ × List String)
  vec : List (ℕ × List ℚ)
deriving DecidableEq, Repr

/-- Modelled from the spec: the empty corpus. -/
def emptyState : CoreState := { store := [], lex := [], vec := [] }

/-- Modelled from the spec: the Vector Index dimensionality is set by the
first inserted vector (`none` while the index is empty). -/
def vecDim (v : List (ℕ × List ℚ)) : Option ℕ :=
  match v with
  | [] => none
  | e :: _ => some e.2.length

/-- Modelled from the spec: Vector Index `add` — fails with
`DimensionMismatch` when the embedding length disagrees with the index's
fixed dimensionality. -/
def vecAdd (v : List (ℕ × List ℚ)) (cid : ℕ) (emb : List ℚ) :
    Except Error (List (ℕ × List ℚ)) :=
  match vecDim v with
  | none => .ok (v ++ [(cid, emb)])
  | some d => if emb.length = d then .ok (v ++ [(cid, emb)]) else .error .DimensionMismatch

/-- Modelled from the spec: insert one chunk into the Chunk Store first
(failing with `DuplicateId` if the id is already present), then the
Lexical Index, then the Vector Index. -/
def insertChunk (s : CoreState) (c : Chunk) : Except Error CoreState :=
  if s.store.any (fun x => x.id == c.id) then
    .error .DuplicateId
  else
    match vecAdd s.vec c.id c.embedding with
    | .error e => .error e
    | .ok vx =>
      .ok { store := s.store ++ [c]
            lex := s.lex ++ [(c.id, tokenize c.text)]
            vec := vx }

/-- State obtained by appending a batch of chunks to all three
components at once; the shape every successful insertion run produces. -/
def appendChunks (s : CoreState) (cs : List Chunk) : CoreState :=
  { store := s.store ++ cs
    lex := s.lex ++ cs.map (fun c => (c.id, tokenize c.text))
    vec := s.vec ++ cs.map (fun c => (c.id, c.embedding)) }

/-- Modelled from the spec: compensating deletes — remove the chunks with
the given ids from all three components. -/
def removeIds (s : CoreState) (ids : List ℕ) : CoreState :=
  { store := s.store.filter (fun c => decide (c.id ∉ ids))
    lex := s.lex.filter (fun e => decide (e.1 ∉ ids))
    vec := s.vec.filter (fun e => decide (e.1 ∉ ids)) }

/-- Worker for `ingest_document`: insert the chunks one by one, recording
the ids inserted so far; stop at the first error, reporting the state
reached, the recorded ids and the error. -/
def ingestGo (s : CoreState) (done : List ℕ) :
    List Chunk → CoreState × List ℕ × Option Error
  | [] => (s, done, none)
  | c :: rest =>
    match insertChunk s c with
    | .error e => (s, done, some e)
    | .ok s' => ingestGo s' (done ++ [c.id]) rest

/-- Modelled from the spec: build a `Chunk` from ingested data, assigning
the owning document id. -/
def mkChunk (docId : String) (d : ChunkData) : Chunk :=
  { id := d.id, document_id := docId, text := d.text, embedding := d.embedding }

/-- Modelled from the spec: `ingest_document` inserts each chunk into the
Chunk Store, Lexical Index and Vector Index; if any step fails partway it
rolls back the already-applied insertions for this document (compensating
deletes of exactly the inserted ids) and surfaces the original error,
otherwise it reports the number of chunks inserted. -/
def ingest_document (s : CoreState) (docId : String) (cs : List ChunkData) :
    CoreState × Except Error ℕ :=
  match (ingestGo s [] (cs.map (mkChunk docId))).2.2 with
  | none => ((ingestGo s [] (cs.map (mkChunk docId))).1, .ok cs.length)
  | some e =>
    (removeIds (ingestGo s [] (cs.map (mkChunk docId))).1
      (ingestGo s [] (cs.map (mkChunk docId))).2.1, .error e)

/-- Modelled from the spec: `delete_document` removes every chunk of the
document from the Vector Index, the Lexical Index and the Chunk Store,
reporting the number of chunks removed; deleting an unknown document id
removes nothing. -/
def delete_document (s : CoreState) (docId : String) : CoreState × ℕ :=
  (removeIds s ((s.store.filter (fun c => c.document_id == docId)).map Chunk.id),
   ((s.store.filter (fun c => c.document_id == docId)).map Chunk.id).length)

/-- Modelled from the spec: Chunk Store `get`. -/
def get (s : CoreState) (cid : ℕ) : Option Chunk :=
  s.store.find? (fun c => c.id == cid)

/-- Modelled from the spec: `stats` reports total chunks and total
documents. -/
def stats (s : CoreState) : ℕ × ℕ :=
  (s.store.length, (s.store.map Chunk.document_id).dedup.length)

/-- Well-formedness of a core state: the Lexical Index and the Vector
Index carry exactly one entry per stored chunk, in step with the Chunk
Store, and chunk ids are unique. -/
def Wf (s : CoreState) : Prop :=
  s.lex.map Prod.fst = s.store.map Chunk.id ∧
  s.vec.map Prod.fst = s.store.map Chunk.id ∧
  (s.store.map Chunk.id).Nodup

instance (s : CoreState) : Decidable (Wf s) := by
  unfold Wf
  infer_instance

/-- States of the core reachable by completed `ingest_document` and
`delete_document` operations from the empty corpus. -/
inductive Reachable : CoreState → Prop where
  | init : Reachable emptyState
  | ingest (s : CoreState) (docId : String) (cs : List ChunkData) :
      Reachable s → Reachable (ingest_document s docId cs).1
  | delete (s : CoreState) (docId : String) :
      Reachable s → Reachable (delete_document s docId).1

/-- Modelled from the spec: a query's parameters — `top_k` (an integer,
so that the non-positive contract violation is expressible), the two
relative weights and the raw-vector-similarity threshold. -/
structure QueryParams where
  top_k : ℤ
  vector_weight : ℚ
  bm25_weight : ℚ
  similarity_threshold : ℚ
deriving DecidableEq, Repr

/-- Modelled from the spec: one entry of a `RankedResult`. -/
structure ResultEntry where
  chunk_id : ℕ
  combined_score : ℚ
  vector_score : ℚ
  bm25_score : ℚ
deriving DecidableEq, Repr

/-- Ordering used by the Vector Index search: descending similarity. -/
def simGE (a b : ℕ × ℚ) : Prop := b.2 ≤ a.2

instance : DecidableRel simGE := fun a b => inferInstanceAs (Decidable (b.2 ≤ a.2))

instance : IsTotal (ℕ × ℚ) simGE := ⟨fun a b => le_total b.2 a.2⟩

instance : IsTrans (ℕ × ℚ) simGE := ⟨fun _ _ _ h1 h2 => le_trans h2 h1⟩

/-- Modelled from the spec: Vector Index `search` — score every entry by
similarity to the query embedding, order descending by similarity, and
return at most `k` entries.  The similarity function (the spec's cosine
similarity, an irrational-valued function on rational vectors) is
supplied as a parameter. -/
def vectorSearch (vec : List (ℕ × List ℚ)) (sim : List ℚ → List ℚ → ℚ)
    (qemb : List ℚ) (k : ℕ) : List (ℕ × ℚ) :=
  (List.insertionSort simGE (vec.map (fun e => (e.1, sim qemb e.2)))).take k

/-- Modelled from the spec: the ranker's candidate pool — a vector search
widened to `top_k * 4`, with every candidate whose raw vector similarity
falls below `similarity_threshold` discarded. -/
def candidatePool (s : CoreState) (sim : List ℚ → List ℚ → ℚ)
    (qemb : List ℚ) (p : QueryParams) : List (ℕ × ℚ) :=
  (vectorSearch s.vec sim qemb (p.top_k.toNat * 4)).filter
    (fun e => decide (p.similarity_threshold ≤ e.2))

/-- Minimum of a list of rationals (`0` on the empty list, which the
ranker never consults). -/
def listMin : List ℚ → ℚ
  | [] => 0
  | [x] => x
  | x :: y :: xs => min x (listMin (y :: xs))

/-- Maximum of a list of rationals (`0` on the empty list, which the
ranker never consults). -/
def listMax : List ℚ → ℚ
  | [] => 0
  | [x] => x
  | x :: y :: xs => max x (listMax (y :: xs))

/-- Modelled from the spec: min-max normalization of a value against a
pool minimum and maximum; when all values of the component are equal the
component normalizes to the constant `1` instead of dividing by zero. -/
def minmaxNorm (mn mx x : ℚ) : ℚ :=
  if mx = mn then 1 else (x - mn) / (mx - mn)

/-- Vector-similarity scores of the candidate pool. -/
def poolVecScores (s : CoreState) (sim : List ℚ → List ℚ → ℚ)
    (qemb : List ℚ) (p : QueryParams) : List ℚ :=
  (candidatePool s sim qemb p).map Prod.snd

/-- Lexical (BM25) scores of the candidate pool; a candidate with no
lexical score is scored `0` by the supplied mapping. -/
def poolLexScores (s : CoreState) (sim : List ℚ → List ℚ → ℚ)
    (lexScore : ℕ → ℚ) (qemb : List ℚ) (p : QueryParams) : List ℚ :=
  (candidatePool s sim qemb p).map (fun e => lexScore e.1)

/-- Modelled from the spec: build one result entry from a pool candidate,
normalizing each score component independently against the pool and
combining them by the configured weights. -/
def mkEntry (p : QueryParams) (lexScore : ℕ → ℚ) (vmn vmx bmn bmx : ℚ)
    (e : ℕ × ℚ) : ResultEntry :=
  { chunk_id := e.1
    vector_score := e.2
    bm25_score := lexScore e.1
    combined_score :=
      p.vector_weight * minmaxNorm vmn vmx e.2 +
      p.bm25_weight * minmaxNorm bmn bmx (lexScore e.1) }

/-- Scored (not yet sorted) entries of the candidate pool. -/
def rankedEntries (s : CoreState) (sim : List ℚ → List ℚ → ℚ)
    (lexScore : ℕ → ℚ) (qemb : List ℚ) (p : QueryParams) : List ResultEntry :=
  (candidatePool s sim qemb p).map
    (mkEntry p lexScore
      (listMin (poolVecScores s sim qemb p)) (listMax (poolVecScores s sim qemb p))
      (listMin (poolLexScores s sim lexScore qemb p))
      (listMax (poolLexScores s sim lexScore qemb p)))

/-- Modelled from the spec: the ranker's sort order — descending by
combined score, ties broken by descending raw vector similarity, then by
ascending chunk id. -/
def entryLE (a b : ResultEntry) : Prop :=
  b.combined_score < a.combined_score ∨
    (a.combined_score = b.combined_score ∧
      (b.vector_score < a.vector_score ∨
        (a.vector_score = b.vector_score ∧ a.chunk_id ≤ b.chunk_id)))

instance : DecidableRel entryLE := fun a b => by unfold entryLE; infer_instance

/-- Strict version of the ranker's order, realized on every result list
because chunk ids are distinct. -/
def entryLT (a b : ResultEntry) : Prop :=
  b.combined_score < a.combined_score ∨
    (a.combined_score = b.combined_score ∧
      (b.vector_score < a.vector_score ∨
        (a.vector_score = b.vector_score ∧ a.chunk_id < b.chunk_id)))

instance : IsTotal ResultEntry entryLE := by
  constructor
  intro a b
  rcases lt_trichotomy a.combined_score b.combined_score with h | h | h
  · exact Or.inr (Or.inl h)
  · rcases lt_trichotomy a.vector_score b.vector_score with h2 | h2 | h2
    · exact Or.inr (Or.inr ⟨h.symm, Or.inl h2⟩)
    · rcases Nat.le_total a.chunk_id b.chunk_id with h3 | h3
      · exact Or.inl (Or.inr ⟨h, Or.inr ⟨h2, h3⟩⟩)
      · exact Or.inr (Or.inr ⟨h.symm, Or.inr ⟨h2.symm, h3⟩⟩)
    · exact Or.inl (Or.inr ⟨h, Or.inl h2⟩)
  · exact Or.inl (Or.inl h)

instance : IsTrans ResultEntry entryLE := by
  constructor
  intro a b c hab hbc
  rcases hab with h1 | ⟨e1, h1⟩
  · rcases hbc with h2 | ⟨e2, _⟩
    · exact Or.inl (h2.trans h1)
    · exact Or.inl (lt_of_le_of_lt (le_of_eq e2.symm) h1)
  · rcases hbc with h2 | ⟨e2, h2⟩
    · exact Or.inl (lt_of_lt_of_le h2 (le_of_eq e1.symm))
    · refine Or.inr ⟨e1.trans e2, ?_⟩
      rcases h1 with h1 | ⟨v1, h1⟩
      · rcases h2 with h2 | ⟨v2, _⟩
        · exact Or.inl (h2.trans h1)
        · exact Or.inl (lt_of_le_of_lt (le_of_eq v2.symm) h1)
      · rcases h2 with h2 | ⟨v2, h2⟩
        · exact Or.inl (lt_of_lt_of_le h2 (le_of_eq v1.symm))
        · exact Or.inr ⟨v1.trans v2, h1.trans h2⟩

/-- Modelled from the spec: the Hybrid Ranker's `query`.  A non-positive
`top_k` is a contract violation failing with `InvalidArgument`;
otherwise the thresholded candidate pool is scored, normalized, merged
under the configured weights, sorted by the deterministic order and
truncated to `top_k`.  The vector similarity function and the lexical
score mapping of this query are supplied by the two index components. -/
def query (s : CoreState) (sim : List ℚ → List ℚ → ℚ) (lexScore : ℕ → ℚ)
    (qemb : List ℚ) (p : QueryParams) : Except Error (List ResultEntry) :=
  if p.top_k ≤ 0 then
    .error .InvalidArgument
  else
    .ok ((List.insertionSort entryLE (rankedEntries s sim lexScore qemb p)).take p.top_k.toNat)

/-- Modelled from the spec: term frequency of `t` in a chunk's token
list. -/
def termFreq (toks : List String) (t : String) : ℕ := toks.count t

/-- Modelled from the spec: document length of a chunk (token count). -/
def docLen (toks : List String) : ℕ := toks.length

/-- Modelled from the spec: `N`, the total chunk count of the Lexical
Index. -/
def lexN (L : List (ℕ × List String)) : ℕ := L.length

/-- Modelled from the spec: `df(term)`, the number of chunks containing
the term. -/
def docFreq (L : List (ℕ × List String)) (t : String) : ℕ :=
  (L.filter (fun e => e.2.contains t)).length

/-- Modelled from the spec: the average chunk length of the corpus (as a
real number; the quotient is never consulted on an empty corpus). -/
noncomputable def avgLen (L : List (ℕ × List String)) : ℝ :=
  ((L.map (fun e => (e.2.length : ℝ))).sum) / (lexN L : ℝ)

/-- Modelled from the spec: `idf(term) = ln(1 + (N - df + 0.5) / (df + 0.5))`. -/
noncomputable def idf (L : List (ℕ × List String)) (t : String) : ℝ :=
  Real.log (1 + ((lexN L : ℝ) - (docFreq L t : ℝ) + 1/2) / ((docFreq L t : ℝ) + 1/2))

/-- Modelled from the spec: the BM25 contribution of one term to one
chunk, `idf * (tf * (k1+1)) / (tf + k1 * (1 - b + b * len/avg_len))`. -/
noncomputable def termScore (L : List (ℕ × List String)) (k1 b : ℝ)
    (t : String) (toks : List String) : ℝ :=
  idf L t * ((termFreq toks t : ℝ) * (k1 + 1)) /
    ((termFreq toks t : ℝ) + k1 * (1 - b + b * (docLen toks : ℝ) / avgLen L))

/-- Modelled from the spec: a chunk's BM25 score — the accumulated
contributions of the deduplicated query terms that are present in the
index. -/
noncomputable def scoreChunk (L : List (ℕ × List String)) (k1 b : ℝ)
    (qtoks : List String) (toks : List String) : ℝ :=
  (qtoks.dedup.filter (fun t => decide (0 < docFreq L t))).foldl
    (fun acc t => acc + termScore L k1 b t toks) 0

/-- Modelled from the spec: the Lexical Index `score` operation —
tokenize the query with the index's tokenizer and return the mapping
from chunk id to BM25 score, with chunks sharing no query term absent
from the mapping. -/
noncomputable def lexIndexScore (L : List (ℕ × List String)) (k1 b : ℝ)
    (qtext : String) : List (ℕ × ℝ) :=
  (L.filter (fun e => (tokenize qtext).any (fun t => e.2.contains t))).map
    (fun e => (e.1, scoreChunk L k1 b (tokenize qtext) e.2))

end RagSpec

namespace InterfaceLayer

/-- JSON-like runtime value carried by a request field, distinguishing
the shapes the handlers' checks can observe. -/
inductive JValue where
  | jnull
  | jbool (b : Bool)
  | jnum (n : ℤ)
  | jstr (s : String)
  | jarr
  | jobj
deriving DecidableEq, Repr

/-- JavaScript truthiness of a possibly-absent field (`undefined`, `null`,
`0`, `false` and the empty string are falsy). -/
def truthy : Option JValue → Bool
  | none => false
  | some .jnull => false
  | some (.jbool b) => b
  | some (.jnum n) => !(n == 0)
  | some (.jstr s) => !(s == "")
  | some .jarr => true
  | some .jobj => true

/-- Whether a possibly-absent field holds a string value (the handlers'
`typeof message !== 'string'` check, negated). -/
def isStringVal : Option JValue → Bool
  | some (.jstr _) => true
  | _ => false

/-- String interpolation of a field value into a cache key (JavaScript
template-literal coercion). -/
def interpolate : JValue → String
  | .jnull => "null"
  | .jbool b => if b then "true" else "false"
  | .jnum n => toString n
  | .jstr s => s
  | .jarr => ""
  | .jobj => "[object Object]"

/-- Body of a `POST /api/chat` request: the two fields the handler
reads, each possibly absent. -/
structure ChatRequestBody where
  message : Option JValue
  session_id : Option JValue
deriving DecidableEq, Repr

/-- Outcome of the forwarded backend call, as observed through axios:
either response data, or a failure carrying an optional error response
(status and error text) and whether the connection was refused. -/
structure AxiosFailure where
  responseStatus : Option ℕ
  responseError : Option String
  connRefused : Bool
deriving DecidableEq, Repr

/-- Record cached for one chat interaction. -/
structure CacheRecord where
  message : String
  response : String
  timestamp : ℕ
deriving DecidableEq, Repr

/-- Response body sent to the HTTP client. -/
inductive ResponseBody where
  | errorMsg (msg : String)
  | payload (data : String)
deriving DecidableEq, Repr

/-- Everything observable about one `sendMessage` invocation: the HTTP
status and body of the response, whether the AI backend was called, and
the writes performed on the cache. -/
structure SendOutcome where
  status : ℕ
  body : ResponseBody
  backendCalled : Bool
  cacheWrites : List (String × CacheRecord)
deriving DecidableEq, Repr

/-- The `chatController.sendMessage` handler: reject a missing,
non-string or empty message with a 400 error before any side effect;
otherwise forward to the AI backend, cache the interaction under
`chat:<session>:<now>` and relay the backend data, mapping backend
failures to the appropriate error status. -/
def sendMessage (body : ChatRequestBody) (backend : Except AxiosFailure String)
    (now : ℕ) : SendOutcome :=
  match body.message with
  | some (.jstr m) =>
    if m == "" then
      { status := 400, body := .errorMsg "Message is required"
        backendCalled := false, cacheWrites := [] }
    else
      match backend with
      | .ok data =>
        let sid := match body.session_id with
          | some v => if truthy (some v) then interpolate v else "default"
          | none => "default"
        { status := 200, body := .payload data, backendCalled := true
          cacheWrites := [("chat:" ++ sid ++ ":" ++ toString now,
            { message := m, response := data, timestamp := now })] }
      | .error f =>
        match f.responseStatus with
        | some st =>
          { status := st
            body := .errorMsg ((f.responseError).getD "Chat processing failed")
            backendCalled := true, cacheWrites := [] }
        | none =>
          if f.connRefused then
            { status := 503, body := .errorMsg "AI backend service unavailable"
              backendCalled := true, cacheWrites := [] }
          else
            { status := 500
              body := .errorMsg "Internal server error during chat processing"
              backendCalled := true, cacheWrites := [] }
  | _ =>
    { status := 400, body := .errorMsg "Message is required"
      backendCalled := false, cacheWrites := [] }

/-- Payload of a `message` WebSocket event. -/
structure SocketMessageData where
  content : Option JValue
  session_id : Option JValue
deriving DecidableEq, Repr

/-- Successful backend answer for the socket path. -/
structure StreamAnswer where
  answer : String
  sources : List String
deriving DecidableEq, Repr

/-- Acknowledgement value passed to the socket callback. -/
inductive CallbackResult where
  | failure (msg : String)
  | success
deriving DecidableEq, Repr

/-- Everything observable about one socket `message` handling: the
acknowledgement callback value (error text or success), the events
emitted back, whether the backend was called, and the cache writes. -/
structure SocketOutcome where
  callback : CallbackResult
  emittedMessages : List StreamAnswer
  emittedErrors : List String
  backendCalled : Bool
  cacheWrites : List (String × CacheRecord)
deriving DecidableEq, Repr

/-- The socket `message` handler of `setupSocketHandlers`: reject a
missing, non-string or empty content through the callback before any
side effect; otherwise forward to the AI backend stream endpoint, cache
the interaction under `socket:<socket id>:<now>`, emit the answer and
acknowledge success, mapping a failure to an `error` emission plus an
error callback. -/
def socketMessage (data : SocketMessageData)
    (backend : Except AxiosFailure StreamAnswer) (socketId : String)
    (now : ℕ) : SocketOutcome :=
  match data.content with
  | some (.jstr m) =>
    if m == "" then
      { callback := .failure "Message content is required"
        emittedMessages := [], emittedErrors := []
        backendCalled := false, cacheWrites := [] }
    else
      match backend with
      | .ok resp =>
        { callback := .success
          emittedMessages := [resp], emittedErrors := []
          backendCalled := true
          cacheWrites := [("socket:" ++ socketId ++ ":" ++ toString now,
            { message := m, response := resp.answer, timestamp := now })] }
      | .error f =>
        let msg := (f.responseError).getD "Failed to process message"
        { callback := .failure msg
          emittedMessages := [], emittedErrors := [msg]
          backendCalled := true, cacheWrites := [] }
  | _ =>
    { callback := .failure "Message content is required"
      emittedMessages := [], emittedErrors := []
      backendCalled := false, cacheWrites := [] }

/-- One history record parsed back from the cache. -/
structure HistoryEntry where
  message : String
  response : String
  timestamp : ℤ
deriving DecidableEq, Repr

/-- Sort order of the history: non-decreasing timestamps (the handler's
numeric comparator on `getTime()` values). -/
def tsLE (a b : HistoryEntry) : Prop := a.timestamp ≤ b.timestamp

instance : DecidableRel tsLE := fun a b => inferInstanceAs (Decidable (a.timestamp ≤ b.timestamp))

instance : IsTotal HistoryEntry tsLE := ⟨fun a b => le_total a.timestamp b.timestamp⟩

instance : IsTrans HistoryEntry tsLE := ⟨fun _ _ _ h1 h2 => le_trans h1 h2⟩

/-- The `chatController.getChatHistory` handler: collect the cached
records of the session in the order the key scan returns them, skipping
keys whose value is gone, then sort by timestamp ascending. -/
def getChatHistory (fetched : List (Option HistoryEntry)) : List HistoryEntry :=
  List.insertionSort tsLE
    (fetched.foldl (fun acc d => match d with | some v => acc ++ [v] | none => acc) [])

end InterfaceLayer

namespace RagSpec

/-- Concrete corpus holding one chunk of document `d`, used to evaluate
the lifecycle theorems on explicit inputs. -/
def exDState : CoreState :=
  { store := [{ id := 5, document_id := "d", text := "", embedding := [1] }]
    lex := [(5, [])]
    vec := [(5, [1])] }

/-- Concrete corpus holding one chunk of a document other than `d`. -/
def exOtherState : CoreState :=
  { store := [{ id := 5, document_id := "other", text := "", embedding := [1] }]
    lex := [(5, [])]
    vec := [(5, [1])] }

/-- Concrete similarity function used to evaluate the ranker theorems. -/
def exSim : List ℚ → List ℚ → ℚ := fun _ e => listMin e

/-- Concrete lexical score mapping used to evaluate the ranker theorems. -/
def exLex : ℕ → ℚ := fun _ => 0

/-- Concrete query parameters used to evaluate the ranker theorems
(integer-valued weights, since the weights are relative). -/
def exParams : QueryParams := ⟨2, 1, 2, 1⟩

/-- The ranked result the example query produces. -/
def exRes : List ResultEntry := [⟨5, 3, 1, 0⟩]

/-- Concrete two-chunk Lexical Index used to evaluate the BM25 theorem. -/
def exLexIndex : List (ℕ × List String) := [(1, ["cats", "are", "mammals"]), (2, ["dogs"])]

theorem vecAdd_ok {v : List (ℕ × List ℚ)} {cid : ℕ} {emb : List ℚ}
    {vx : List (ℕ × List ℚ)} (h : vecAdd v cid emb = .ok vx) :
    vx = v ++ [(cid, emb)] := by
  unfold vecAdd at h
  split at h
  · injection h with h
    exact h.symm
  · split at h
    · injection h with h
      exact h.symm
    · exact Except.noConfusion h

theorem insertChunk_ok {s : CoreState} {c : Chunk} {s' : CoreState}
    (h : insertChunk s c = .ok s') :
    s' = appendChunks s [c] ∧ c.id ∉ s.store.map Chunk.id := by
  unfold insertChunk at h
  split at h
  · exact Except.noConfusion h
  · rename_i hany
    have hfresh : c.id ∉ s.store.map Chunk.id := by
      intro hmem
      obtain ⟨x, hx, hxid⟩ := List.mem_map.mp hmem
      exact hany (List.any_eq_true.mpr ⟨x, hx, by simp [hxid]⟩)
    refine ⟨?_, hfresh⟩
    cases hv : vecAdd s.vec c.id c.embedding with
    | error e => rw [hv] at h; exact Except.noConfusion h
    | ok vx =>
      rw [hv] at h
      injection h with h
      rw [← h, vecAdd_ok hv]
      simp [appendChunks]

theorem appendChunks_nil (s : CoreState) : appendChunks s [] = s := by
  simp [appendChunks]

theorem appendChunks_append (s : CoreState) (a b : List Chunk) :
    appendChunks (appendChunks s a) b = appendChunks s (a ++ b) := by
  simp [appendChunks]

theorem Wf_append_single {s : CoreState} {c : Chunk} (hwf : Wf s)
    (hfresh : c.id ∉ s.store.map Chunk.id) : Wf (appendChunks s [c]) := by
  obtain ⟨hlex, hvec, hnd⟩ := hwf
  refine ⟨?_, ?_, ?_⟩
  · simp [appendChunks, hlex]
  · simp [appendChunks, hvec]
  · simp only [appendChunks, List.map_append, List.map_cons, List.map_nil]
    rw [List.nodup_append]
    refine ⟨hnd, List.nodup_singleton _, ?_⟩
    intro a ha hb
    simp only [List.mem_singleton] at hb
    exact hfresh (hb ▸ ha)

theorem ingestGo_spec (l : List Chunk) :
    ∀ (s : CoreState) (done : List ℕ), Wf s →
      ∃ added : List Chunk,
        (ingestGo s done l).1 = appendChunks s added ∧
        (ingestGo s done l).2.1 = done ++ added.map Chunk.id ∧
        (∀ c ∈ added, c.id ∉ s.store.map Chunk.id) ∧
        (added.map Chunk.id).Nodup ∧
        Wf (ingestGo s done l).1 ∧
        ((ingestGo s done l).2.2 = none → added = l) := by
  induction l with
  | nil =>
    intro s done hwf
    exact ⟨[], (appendChunks_nil s).symm, by simp [ingestGo], by simp,
      by simp, by simpa [ingestGo] using hwf, by simp⟩
  | cons c rest ih =>
    intro s done hwf
    cases hic : insertChunk s c with
    | error e =>
      refine ⟨[], ?_, ?_, by simp, by simp, ?_, ?_⟩
      · simp [ingestGo, hic, appendChunks_nil]
      · simp [ingestGo, hic]
      · simpa [ingestGo, hic] using hwf
      · simp [ingestGo, hic]
    | ok s1 =>
      obtain ⟨hs1eq, hfresh1⟩ := insertChunk_ok hic
      have hwf1 : Wf s1 := hs1eq ▸ Wf_append_single hwf hfresh1
      obtain ⟨added', ha1, ha2, ha3, ha4, ha5, ha6⟩ := ih s1 (done ++ [c.id]) hwf1
      have hmemc : c.id ∈ s1.store.map Chunk.id := by
        rw [hs1eq]
        simp [appendChunks]
      refine ⟨c :: added', ?_, ?_, ?_, ?_, ?_, ?_⟩
      · show (ingestGo s done (c :: rest)).1 = _
        simp only [ingestGo, hic]
        rw [ha1, hs1eq, appendChunks_append]
        rfl
      · simp only [ingestGo, hic]
        rw [ha2]
        simp
      · intro x hx
        rcases List.mem_cons.mp hx with rfl | hx'
        · exact hfresh1
        · intro hmem
          refine ha3 x hx' ?_
          rw [hs1eq]
          simp only [appendChunks, List.map_append, List.map_cons, List.map_nil,
            List.mem_append]
          exact Or.inl hmem
      · simp only [List.map_cons, List.nodup_cons]
        refine ⟨?_, ha4⟩
        intro hmem
        obtain ⟨x, hx, hxid⟩ := List.mem_map.mp hmem
        exact ha3 x hx (hxid ▸ hmemc)
      · simpa only [ingestGo, hic] using ha5
      · intro hr
        simp only [ingestGo, hic] at hr
        rw [ha6 hr]

theorem Wf_removeIds {s : CoreState} (hwf : Wf s) (ids : List ℕ) :
    Wf (removeIds s ids) := by
  obtain ⟨hlex, hvec, hnd⟩ := hwf
  refine ⟨?_, ?_, ?_⟩
  · calc (s.lex.filter (fun e => decide (e.1 ∉ ids))).map Prod.fst
        = (s.lex.map Prod.fst).filter (fun n => decide (n ∉ ids)) :=
          (List.filter_map (p := fun n => decide (n ∉ ids)) Prod.fst s.lex).symm
      _ = (s.store.map Chunk.id).filter (fun n => decide (n ∉ ids)) := by rw [hlex]
      _ = (s.store.filter (fun c => decide (c.id ∉ ids))).map Chunk.id :=
          List.filter_map (p := fun n => decide (n ∉ ids)) Chunk.id s.store
  · calc (s.vec.filter (fun e => decide (e.1 ∉ ids))).map Prod.fst
        = (s.vec.map Prod.fst).filter (fun n => decide (n ∉ ids)) :=
          (List.filter_map (p := fun n => decide (n ∉ ids)) Prod.fst s.vec).symm
      _ = (s.store.map Chunk.id).filter (fun n => decide (n ∉ ids)) := by rw [hvec]
      _ = (s.store.filter (fun c => decide (c.id ∉ ids))).map Chunk.id :=
          List.filter_map (p := fun n => decide (n ∉ ids)) Chunk.id s.store
  · show ((s.store.filter ((fun n => decide (n ∉ ids)) ∘ Chunk.id)).map Chunk.id).Nodup
    rw [← List.filter_map (p := fun n => decide (n ∉ ids)) Chunk.id s.store]
    exact hnd.filter _

theorem removeIds_appendChunks {s : CoreState} {added : List Chunk} (hwf : Wf s)
    (hfresh : ∀ c ∈ added, c.id ∉ s.store.map Chunk.id) :
    removeIds (appendChunks s added) (added.map Chunk.id) = s := by
  obtain ⟨hlex, hvec, hnd⟩ := hwf
  have hsid : ∀ n ∈ s.store.map Chunk.id, n ∉ added.map Chunk.id := by
    intro n hn hmem
    obtain ⟨c, hc, rfl⟩ := List.mem_map.mp hmem
    exact hfresh c hc hn
  have hstore : s.store.filter (fun c => decide (c.id ∉ added.map Chunk.id)) = s.store :=
    List.filter_eq_self.mpr (fun x hx => by
      simpa using hsid x.id (List.mem_map_of_mem Chunk.id hx))
  have haddstore : added.filter (fun c => decide (c.id ∉ added.map Chunk.id)) = [] :=
    List.filter_eq_nil_iff.mpr (fun c hc => by
      simpa using List.mem_map_of_mem Chunk.id hc)
  have hlexkeep : s.lex.filter (fun e => decide (e.1 ∉ added.map Chunk.id)) = s.lex :=
    List.filter_eq_self.mpr (fun e he => by
      have hin : e.1 ∈ s.store.map Chunk.id := by
        rw [← hlex]
        exact List.mem_map_of_mem Prod.fst he
      simpa using hsid e.1 hin)
  have haddlex : (added.map (fun c => (c.id, tokenize c.text))).filter
      (fun e => decide (e.1 ∉ added.map Chunk.id)) = [] :=
    List.filter_eq_nil_iff.mpr (fun e he => by
      obtain ⟨c, hc, rfl⟩ := List.mem_map.mp he
      simpa using List.mem_map_of_mem Chunk.id hc)
  have hveckeep : s.vec.filter (fun e => decide (e.1 ∉ added.map Chunk.id)) = s.vec :=
    List.filter_eq_self.mpr (fun e he => by
      have hin : e.1 ∈ s.store.map Chunk.id := by
        rw [← hvec]
        exact List.mem_map_of_mem Prod.fst he
      simpa using hsid e.1 hin)
  have haddvec : (added.map (fun c => (c.id, c.embedding))).filter
      (fun e => decide (e.1 ∉ added.map Chunk.id)) = [] :=
    List.filter_eq_nil_iff.mpr (fun e he => by
      obtain ⟨c, hc, rfl⟩ := List.mem_map.mp he
      simpa using List.mem_map_of_mem Chunk.id hc)
  simp only [removeIds, appendChunks, List.filter_append, hstore, haddstore,
    hlexkeep, haddlex, hveckeep, haddvec, List.append_nil]

theorem removeIds_nil (s : CoreState) : removeIds s [] = s := by
  simp [removeIds]

theorem delete_document_absent {s : CoreState} {docId : String}
    (h : ∀ c ∈ s.store, c.document_id ≠ docId) : delete_document s docId = (s, 0) := by
  have hrem : s.store.filter (fun c => c.document_id == docId) = [] :=
    List.filter_eq_nil_iff.mpr (fun c hc => by simp [h c hc])
  unfold delete_document
  rw [hrem]
  simp [removeIds_nil]

theorem delete_document_appendChunks {s : CoreState} {added : List Chunk}
    {docId : String} (hwf : Wf s) (hdoc : ∀ c ∈ s.store, c.document_id ≠ docId)
    (hadd : ∀ c ∈ added, c.document_id = docId)
    (hfresh : ∀ c ∈ added, c.id ∉ s.store.map Chunk.id) :
    delete_document (appendChunks s added) docId = (s, added.length) := by
  have hfil : (s.store ++ added).filter (fun c => c.document_id == docId) = added := by
    rw [List.filter_append,
      List.filter_eq_nil_iff.mpr (fun c hc => by simp [hdoc c hc]),
      List.filter_eq_self.mpr (fun c hc => by simp [hadd c hc])]
    simp
  unfold delete_document
  have hst : (appendChunks s added).store = s.store ++ added := rfl
  rw [hst, hfil, removeIds_appendChunks hwf hfresh]
  simp

theorem Wf_reachable {s : CoreState} (h : Reachable s) : Wf s := by
  induction h with
  | init => exact ⟨rfl, rfl, List.nodup_nil⟩
  | ingest s docId cs hr ih =>
    obtain ⟨added, h1, h2, h3, h4, h5, h6⟩ :=
      ingestGo_spec (cs.map (mkChunk docId)) s [] ih
    unfold ingest_document
    cases hr2 : (ingestGo s [] (cs.map (mkChunk docId))).2.2 with
    | none => simpa using h5
    | some e => simpa using Wf_removeIds h5 _
  | delete s docId hr ih =>
    unfold delete_document
    exact Wf_removeIds ih _

/-- C5: if any insertion step of `ingest_document` fails partway, all
insertions already applied for that document are rolled back, so the
corpus state returned with the error equals the state before the call —
no query can observe a partially-ingested document. -/
theorem ingest_failure_rolls_back (s : CoreState) (docId : String)
    (cs : List ChunkData) (s' : CoreState) (e : Error) (hwf : Wf s)
    (h : ingest_document s docId cs = (s', .error e)) : s' = s := by
  obtain ⟨added, h1, h2, h3, h4, h5, h6⟩ :=
    ingestGo_spec (cs.map (mkChunk docId)) s [] hwf
  unfold ingest_document at h
  cases hr : (ingestGo s [] (cs.map (mkChunk docId))).2.2 with
  | none =>
    rw [hr] at h
    injection h with hA hB
    exact Except.noConfusion hB
  | some e' =>
    rw [hr] at h
    injection h with hA hB
    rw [← hA, h1, h2]
    simpa using removeIds_appendChunks hwf h3

/-- Witness for C5: ingesting two chunks with the same id into the empty
corpus fails with `DuplicateId` and leaves the corpus empty. -/
theorem ingest_failure_rolls_back_witness :
    Wf emptyState ∧
    ingest_document emptyState "d" [⟨1, "", [1]⟩, ⟨1, "", [1]⟩] =
      (emptyState, .error .DuplicateId) ∧ emptyState = emptyState :=
  ⟨by decide, by decide,
    ingest_failure_rolls_back emptyState "d" [⟨1, "", [1]⟩, ⟨1, "", [1]⟩]
      emptyState .DuplicateId (by decide) (by decide)⟩

/-- C6 counterexample: in a corpus that already holds a chunk of document
`d` (chunk id 5), ingesting document `d` with two fresh-id chunks and then
deleting document `d` does not restore the pre-ingest state — the
pre-existing chunk of `d` is deleted too, so `stats` drops from `(1, 1)`
to `(0, 0)`. -/
theorem roundtrip_counterexample :
    decide ((6 : ℕ) ∈ exDState.store.map Chunk.id) = false ∧
    decide ((7 : ℕ) ∈ exDState.store.map Chunk.id) = false ∧
    (ingest_document exDState "d" [⟨6, "", [1]⟩, ⟨7, "", [1]⟩]).2 = .ok 2 ∧
    stats (delete_document
      (ingest_document exDState "d" [⟨6, "", [1]⟩, ⟨7, "", [1]⟩]).1 "d").1 = (0, 0) ∧
    stats exDState = (1, 1) := by
  decide

/-- C6 (amended): for every well-formed corpus state holding no chunk of
document `d`, ingesting `d` with chunks `c1, c2` whose ids are not already
present and then deleting `d` returns the corpus to its pre-ingest state:
the state (hence `stats()`) is unchanged and `get c1.id` and `get c2.id`
are both absent. -/
theorem roundtrip_restores_fresh_document (s : CoreState) (docId : String)
    (c1 c2 : ChunkData) (hwf : Wf s)
    (hdoc : ∀ c ∈ s.store, c.document_id ≠ docId)
    (h1 : c1.id ∉ s.store.map Chunk.id) (h2 : c2.id ∉ s.store.map Chunk.id) :
    (delete_document (ingest_document s docId [c1, c2]).1 docId).1 = s ∧
    stats (delete_document (ingest_document s docId [c1, c2]).1 docId).1 = stats s ∧
    get (delete_document (ingest_document s docId [c1, c2]).1 docId).1 c1.id = none ∧
    get (delete_document (ingest_document s docId [c1, c2]).1 docId).1 c2.id = none := by
  have hget : ∀ n : ℕ, n ∉ s.store.map Chunk.id → get s n = none := by
    intro n hn
    refine List.find?_eq_none.mpr (fun x hx => ?_)
    simp only [beq_iff_eq]
    intro hxe
    exact hn (hxe ▸ List.mem_map_of_mem Chunk.id hx)
  have hmain : (delete_document (ingest_document s docId [c1, c2]).1 docId).1 = s := by
    obtain ⟨added, ha1, ha2, ha3, ha4, ha5, ha6⟩ :=
      ingestGo_spec ([c1, c2].map (mkChunk docId)) s [] hwf
    unfold ingest_document
    cases hr : (ingestGo s [] ([c1, c2].map (mkChunk docId))).2.2 with
    | none =>
      have hadded : added = [mkChunk docId c1, mkChunk docId c2] := by
        simpa using ha6 hr
      have hadd : ∀ c ∈ added, c.document_id = docId := by
        intro c hc
        rw [hadded] at hc
        rcases List.mem_cons.mp hc with rfl | hc'
        · rfl
        · rcases List.mem_cons.mp hc' with rfl | hc''
          · rfl
          · exact absurd hc'' (List.not_mem_nil c)
      have hd := delete_document_appendChunks hwf hdoc hadd ha3
      show (delete_document (ingestGo s [] ([c1, c2].map (mkChunk docId))).1 docId).1 = s
      rw [ha1, hd]
    | some e =>
      have hroll : removeIds (ingestGo s [] ([c1, c2].map (mkChunk docId))).1
          (ingestGo s [] ([c1, c2].map (mkChunk docId))).2.1 = s := by
        rw [ha1, ha2]
        simpa using removeIds_appendChunks hwf ha3
      show (delete_document (removeIds (ingestGo s [] ([c1, c2].map (mkChunk docId))).1
          (ingestGo s [] ([c1, c2].map (mkChunk docId))).2.1) docId).1 = s
      rw [hroll, delete_document_absent hdoc]
  exact ⟨hmain, by rw [hmain], by rw [hmain]; exact hget c1.id h1,
    by rw [hmain]; exact hget c2.id h2⟩

/-- Witness for the amended C6: a corpus holding one chunk of a different
document, round-tripped through document `d` with fresh ids 6 and 7. -/
theorem roundtrip_restores_fresh_document_witness :
    Wf exOtherState ∧ (∀ c ∈ exOtherState.store, c.document_id ≠ "d") ∧
    (6 : ℕ) ∉ exOtherState.store.map Chunk.id ∧
    (7 : ℕ) ∉ exOtherState.store.map Chunk.id ∧
    (delete_document
      (ingest_document exOtherState "d" [⟨6, "", [1]⟩, ⟨7, "", [1]⟩]).1 "d").1 =
      exOtherState :=
  ⟨by decide, by decide, by decide, by decide,
    (roundtrip_restores_fresh_document exOtherState "d" ⟨6, "", [1]⟩ ⟨7, "", [1]⟩
      (by decide) (by decide) (by decide) (by decide)).1⟩

/-- C7: in every state reachable by completed ingest and delete
operations, the Chunk Store chunk count equals the Vector Index entry
count and the Lexical Index per-chunk entry count, and no index entry
references a chunk absent from the Chunk Store. -/
theorem store_index_consistency (s : CoreState) (h : Reachable s) :
    s.store.length = s.vec.length ∧ s.vec.length = s.lex.length ∧
    (∀ e ∈ s.lex, e.1 ∈ s.store.map Chunk.id) ∧
    (∀ e ∈ s.vec, e.1 ∈ s.store.map Chunk.id) := by
  obtain ⟨hlex, hvec, hnd⟩ := Wf_reachable h
  refine ⟨?_, ?_, ?_, ?_⟩
  · have hv := congrArg List.length hvec
    simpa using hv.symm
  · have hv := congrArg List.length hvec
    have hl := congrArg List.length hlex
    simp only [List.length_map] at hv hl
    omega
  · intro e he
    rw [← hlex]
    exact List.mem_map_of_mem Prod.fst he
  · intro e he
    rw [← hvec]
    exact List.mem_map_of_mem Prod.fst he

/-- Witness for C7: the state reached by one concrete ingest into the
empty corpus. -/
theorem store_index_consistency_witness :
    (ingest_document emptyState "d" [⟨1, "", [1]⟩]).1.store.length =
      (ingest_document emptyState "d" [⟨1, "", [1]⟩]).1.vec.length ∧
    (ingest_document emptyState "d" [⟨1, "", [1]⟩]).1.vec.length =
      (ingest_document emptyState "d" [⟨1, "", [1]⟩]).1.lex.length ∧
    (∀ e ∈ (ingest_document emptyState "d" [⟨1, "", [1]⟩]).1.lex,
      e.1 ∈ (ingest_document emptyState "d" [⟨1, "", [1]⟩]).1.store.map Chunk.id) ∧
    (∀ e ∈ (ingest_document emptyState "d" [⟨1, "", [1]⟩]).1.vec,
      e.1 ∈ (ingest_document emptyState "d" [⟨1, "", [1]⟩]).1.store.map Chunk.id) :=
  store_index_consistency _
    (Reachable.ingest emptyState "d" [⟨1, "", [1]⟩] Reachable.init)


theorem query_ok_eq {s : CoreState} {sim : List ℚ → List ℚ → ℚ}
    {lexScore : ℕ → ℚ} {qemb : List ℚ} {p : QueryParams} {res : List ResultEntry}
    (hq : query s sim lexScore qemb p = .ok res) :
    0 < p.top_k ∧
    res = (List.insertionSort entryLE
      (rankedEntries s sim lexScore qemb p)).take p.top_k.toNat := by
  unfold query at hq
  split at hq
  · exact Except.noConfusion hq
  · rename_i hpos
    injection hq with hq
    exact ⟨by omega, hq.symm⟩

theorem candidatePool_subset {s : CoreState} {sim : List ℚ → List ℚ → ℚ}
    {qemb : List ℚ} {p : QueryParams} {e : ℕ × ℚ}
    (he : e ∈ candidatePool s sim qemb p) :
    (∃ v ∈ s.vec, v.1 = e.1 ∧ sim qemb v.2 = e.2) ∧ p.similarity_threshold ≤ e.2 := by
  unfold candidatePool at he
  obtain ⟨hmem, hthr⟩ := List.mem_filter.mp he
  have hthr' : p.similarity_threshold ≤ e.2 := of_decide_eq_true hthr
  unfold vectorSearch at hmem
  have hmem2 := (List.take_sublist _ _).subset hmem
  have hmem3 := (List.perm_insertionSort simGE _).subset hmem2
  obtain ⟨v, hv, hveq⟩ := List.mem_map.mp hmem3
  exact ⟨⟨v, hv, by rw [← hveq], by rw [← hveq]⟩, hthr'⟩

theorem candidatePool_ids_nodup {s : CoreState} {sim : List ℚ → List ℚ → ℚ}
    {qemb : List ℚ} {p : QueryParams} (hnd : (s.vec.map Prod.fst).Nodup) :
    ((candidatePool s sim qemb p).map Prod.fst).Nodup := by
  have h0 : ((s.vec.map (fun e => (e.1, sim qemb e.2))).map Prod.fst).Nodup := by
    rw [List.map_map]
    exact hnd
  have h1 : ((List.insertionSort simGE
      (s.vec.map (fun e => (e.1, sim qemb e.2)))).map Prod.fst).Nodup :=
    (((List.perm_insertionSort simGE _).map Prod.fst).nodup_iff).mpr h0
  have h2 : ((vectorSearch s.vec sim qemb (p.top_k.toNat * 4)).map Prod.fst).Nodup := by
    unfold vectorSearch
    exact h1.sublist ((List.take_sublist _ _).map Prod.fst)
  unfold candidatePool
  exact h2.sublist ((List.filter_sublist _).map Prod.fst)

theorem rankedEntries_ids (s : CoreState) (sim : List ℚ → List ℚ → ℚ)
    (lexScore : ℕ → ℚ) (qemb : List ℚ) (p : QueryParams) :
    (rankedEntries s sim lexScore qemb p).map ResultEntry.chunk_id =
      (candidatePool s sim qemb p).map Prod.fst := by
  unfold rankedEntries
  rw [List.map_map]
  rfl

theorem rankedEntries_mem {s : CoreState} {sim : List ℚ → List ℚ → ℚ}
    {lexScore : ℕ → ℚ} {qemb : List ℚ} {p : QueryParams} {x : ResultEntry}
    (hx : x ∈ rankedEntries s sim lexScore qemb p) :
    ∃ e ∈ candidatePool s sim qemb p,
      x = mkEntry p lexScore (listMin (poolVecScores s sim qemb p))
        (listMax (poolVecScores s sim qemb p))
        (listMin (poolLexScores s sim lexScore qemb p))
        (listMax (poolLexScores s sim lexScore qemb p)) e := by
  unfold rankedEntries at hx
  obtain ⟨e, he, hee⟩ := List.mem_map.mp hx
  exact ⟨e, he, hee.symm⟩

theorem mem_res_ranked {l : List ResultEntry} {k : ℕ} {x : ResultEntry}
    (hx : x ∈ (List.insertionSort entryLE l).take k) : x ∈ l :=
  (List.perm_insertionSort entryLE l).subset ((List.take_sublist _ _).subset hx)

/-- C1: every chunk in a returned result has raw vector similarity at
least the query's similarity threshold, and a chunk whose raw vector
similarity is below the threshold never appears in the result, whatever
its lexical score. -/
theorem threshold_gate (s : CoreState) (sim : List ℚ → List ℚ → ℚ)
    (lexScore : ℕ → ℚ) (qemb : List ℚ) (p : QueryParams) (res : List ResultEntry)
    (hnd : (s.vec.map Prod.fst).Nodup)
    (hq : query s sim lexScore qemb p = .ok res) :
    (∀ x ∈ res, ∃ v ∈ s.vec, v.1 = x.chunk_id ∧ sim qemb v.2 = x.vector_score ∧
      p.similarity_threshold ≤ x.vector_score) ∧
    (∀ v ∈ s.vec, sim qemb v.2 < p.similarity_threshold →
      ∀ x ∈ res, x.chunk_id ≠ v.1) := by
  obtain ⟨hpos, hres⟩ := query_ok_eq hq
  constructor
  · intro x hx
    rw [hres] at hx
    obtain ⟨e, he, hxe⟩ := rankedEntries_mem (mem_res_ranked hx)
    obtain ⟨⟨v, hv, hv1, hv2⟩, hthr⟩ := candidatePool_subset he
    refine ⟨v, hv, ?_, ?_, ?_⟩
    · rw [hxe]; exact hv1
    · rw [hxe]; exact hv2
    · rw [hxe]; exact hthr
  · intro v hv hbelow x hx hxid
    rw [hres] at hx
    obtain ⟨e, he, hxe⟩ := rankedEntries_mem (mem_res_ranked hx)
    obtain ⟨⟨v', hv', hv'1, hv'2⟩, hthr⟩ := candidatePool_subset he
    have hv'v : v' = v := by
      refine List.inj_on_of_nodup_map hnd hv' hv ?_
      rw [hv'1]
      rw [hxe] at hxid
      exact hxid.symm ▸ rfl
    rw [hv'v] at hv'2
    rw [hv'2] at hbelow
    exact absurd hthr (not_le.mpr hbelow)

theorem entryLE_ne_lt {a b : ResultEntry} (h : entryLE a b)
    (hne : a.chunk_id ≠ b.chunk_id) : entryLT a b := by
  rcases h with h | ⟨hc, h⟩
  · exact Or.inl h
  · rcases h with h | ⟨hv, hid⟩
    · exact Or.inr ⟨hc, Or.inl h⟩
    · exact Or.inr ⟨hc, Or.inr ⟨hv, lt_of_le_of_ne hid hne⟩⟩

/-- C2: every returned result has at most `top_k` entries, no duplicated
chunk id, and is strictly descending in the ranker's order — combined
score first, ties broken by descending raw vector similarity, then by
ascending chunk id. -/
theorem ranked_result_shape (s : CoreState) (sim : List ℚ → List ℚ → ℚ)
    (lexScore : ℕ → ℚ) (qemb : List ℚ) (p : QueryParams) (res : List ResultEntry)
    (hnd : (s.vec.map Prod.fst).Nodup)
    (hq : query s sim lexScore qemb p = .ok res) :
    (res.length : ℤ) ≤ p.top_k ∧ (res.map ResultEntry.chunk_id).Nodup ∧
    res.Pairwise entryLT := by
  obtain ⟨hpos, hres⟩ := query_ok_eq hq
  have hsortedNodup : ((List.insertionSort entryLE
      (rankedEntries s sim lexScore qemb p)).map ResultEntry.chunk_id).Nodup := by
    refine ((List.perm_insertionSort entryLE _).map ResultEntry.chunk_id).nodup_iff.mpr ?_
    rw [rankedEntries_ids]
    exact candidatePool_ids_nodup hnd
  refine ⟨?_, ?_, ?_⟩
  · rw [hres]
    have h1 := List.length_take p.top_k.toNat
      (List.insertionSort entryLE (rankedEntries s sim lexScore qemb p))
    have h2 : (List.take p.top_k.toNat
      (List.insertionSort entryLE (rankedEntries s sim lexScore qemb p))).length ≤
        p.top_k.toNat := by omega
    omega
  · rw [hres]
    exact hsortedNodup.sublist ((List.take_sublist _ _).map ResultEntry.chunk_id)
  · rw [hres]
    refine List.Pairwise.sublist (List.take_sublist _ _) ?_
    have hsorted : (List.insertionSort entryLE
        (rankedEntries s sim lexScore qemb p)).Pairwise entryLE :=
      List.sorted_insertionSort entryLE _
    have hpw : (List.insertionSort entryLE
        (rankedEntries s sim lexScore qemb p)).Pairwise
        (fun a b => a.chunk_id ≠ b.chunk_id) :=
      List.pairwise_map.mp hsortedNodup
    exact (hsorted.and hpw).imp (fun h => entryLE_ne_lt h.1 h.2)


theorem listMin_le_of_mem : ∀ {l : List ℚ} {x : ℚ}, x ∈ l → listMin l ≤ x := by
  intro l
  induction l with
  | nil => intro x hx; exact absurd hx (List.not_mem_nil x)
  | cons a t ih =>
    intro x hx
    cases t with
    | nil =>
      rcases List.mem_cons.mp hx with rfl | hx'
      · exact le_refl x
      · exact absurd hx' (List.not_mem_nil x)
    | cons b t2 =>
      show min a (listMin (b :: t2)) ≤ x
      rcases List.mem_cons.mp hx with rfl | hx'
      · exact min_le_left _ _
      · exact le_trans (min_le_right _ _) (ih hx')

theorem le_listMax_of_mem : ∀ {l : List ℚ} {x : ℚ}, x ∈ l → x ≤ listMax l := by
  intro l
  induction l with
  | nil => intro x hx; exact absurd hx (List.not_mem_nil x)
  | cons a t ih =>
    intro x hx
    cases t with
    | nil =>
      rcases List.mem_cons.mp hx with rfl | hx'
      · exact le_refl x
      · exact absurd hx' (List.not_mem_nil x)
    | cons b t2 =>
      show x ≤ max a (listMax (b :: t2))
      rcases List.mem_cons.mp hx with rfl | hx'
      · exact le_max_left _ _
      · exact le_trans (ih hx') (le_max_right _ _)

theorem listMin_mem : ∀ {l : List ℚ}, l ≠ [] → listMin l ∈ l := by
  intro l
  induction l with
  | nil => intro h; exact absurd rfl h
  | cons a t ih =>
    intro _
    cases t with
    | nil => exact List.mem_singleton.mpr rfl
    | cons b t2 =>
      show min a (listMin (b :: t2)) ∈ a :: b :: t2
      rcases min_choice a (listMin (b :: t2)) with h | h
      · rw [h]; exact List.mem_cons_self a _
      · rw [h]; exact List.mem_cons_of_mem a (ih (by simp))

theorem listMax_mem : ∀ {l : List ℚ}, l ≠ [] → listMax l ∈ l := by
  intro l
  induction l with
  | nil => intro h; exact absurd rfl h
  | cons a t ih =>
    intro _
    cases t with
    | nil => exact List.mem_singleton.mpr rfl
    | cons b t2 =>
      show max a (listMax (b :: t2)) ∈ a :: b :: t2
      rcases max_choice a (listMax (b :: t2)) with h | h
      · rw [h]; exact List.mem_cons_self a _
      · rw [h]; exact List.mem_cons_of_mem a (ih (by simp))

theorem minmaxNorm_nonneg {mn mx x : ℚ} (h1 : mn ≤ x) (h2 : x ≤ mx) :
    0 ≤ minmaxNorm mn mx x := by
  unfold minmaxNorm
  split
  · norm_num
  · rename_i hne
    have hlt : mn < mx := lt_of_le_of_ne (h1.trans h2) (Ne.symm hne)
    exact div_nonneg (by linarith) (by linarith)

theorem minmaxNorm_le_one {mn mx x : ℚ} (h1 : mn ≤ x) (h2 : x ≤ mx) :
    minmaxNorm mn mx x ≤ 1 := by
  unfold minmaxNorm
  split
  · exact le_refl 1
  · rename_i hne
    have hlt : mn < mx := lt_of_le_of_ne (h1.trans h2) (Ne.symm hne)
    rw [div_le_one (by linarith)]
    linarith

theorem minmaxNorm_const {mn mx x : ℚ} (h : mx = mn) : minmaxNorm mn mx x = 1 := by
  simp [minmaxNorm, h]

/-- C3: each returned entry combines the two score components as
`vector_weight * normalized_vector + bm25_weight * normalized_bm25`,
where each component is min-max normalized to the unit interval over the
candidate pool independently, and a component whose values are all equal
across the pool normalizes to the constant `1` (no division by zero). -/
theorem combined_score_normalization (s : CoreState) (sim : List ℚ → List ℚ → ℚ)
    (lexScore : ℕ → ℚ) (qemb : List ℚ) (p : QueryParams) (res : List ResultEntry)
    (hq : query s sim lexScore qemb p = .ok res) :
    ∀ x ∈ res,
      x.combined_score =
        p.vector_weight * minmaxNorm (listMin (poolVecScores s sim qemb p))
          (listMax (poolVecScores s sim qemb p)) x.vector_score +
        p.bm25_weight * minmaxNorm (listMin (poolLexScores s sim lexScore qemb p))
          (listMax (poolLexScores s sim lexScore qemb p)) x.bm25_score ∧
      0 ≤ minmaxNorm (listMin (poolVecScores s sim qemb p))
        (listMax (poolVecScores s sim qemb p)) x.vector_score ∧
      minmaxNorm (listMin (poolVecScores s sim qemb p))
        (listMax (poolVecScores s sim qemb p)) x.vector_score ≤ 1 ∧
      0 ≤ minmaxNorm (listMin (poolLexScores s sim lexScore qemb p))
        (listMax (poolLexScores s sim lexScore qemb p)) x.bm25_score ∧
      minmaxNorm (listMin (poolLexScores s sim lexScore qemb p))
        (listMax (poolLexScores s sim lexScore qemb p)) x.bm25_score ≤ 1 ∧
      ((∀ a ∈ poolVecScores s sim qemb p, ∀ b ∈ poolVecScores s sim qemb p, a = b) →
        minmaxNorm (listMin (poolVecScores s sim qemb p))
          (listMax (poolVecScores s sim qemb p)) x.vector_score = 1) ∧
      ((∀ a ∈ poolLexScores s sim lexScore qemb p,
          ∀ b ∈ poolLexScores s sim lexScore qemb p, a = b) →
        minmaxNorm (listMin (poolLexScores s sim lexScore qemb p))
          (listMax (poolLexScores s sim lexScore qemb p)) x.bm25_score = 1) := by
  obtain ⟨hpos, hres⟩ := query_ok_eq hq
  intro x hx
  rw [hres] at hx
  obtain ⟨e, he, hxe⟩ := rankedEntries_mem (mem_res_ranked hx)
  have hv : x.vector_score = e.2 := by rw [hxe]; rfl
  have hb : x.bm25_score = lexScore e.1 := by rw [hxe]; rfl
  have hvmem : x.vector_score ∈ poolVecScores s sim qemb p := by
    rw [hv]
    exact List.mem_map_of_mem Prod.snd he
  have hbmem : x.bm25_score ∈ poolLexScores s sim lexScore qemb p := by
    rw [hb]
    exact List.mem_map_of_mem (fun c => lexScore c.1) he
  have hvlo := listMin_le_of_mem hvmem
  have hvhi := le_listMax_of_mem hvmem
  have hblo := listMin_le_of_mem hbmem
  have hbhi := le_listMax_of_mem hbmem
  refine ⟨?_, minmaxNorm_nonneg hvlo hvhi, minmaxNorm_le_one hvlo hvhi,
    minmaxNorm_nonneg hblo hbhi, minmaxNorm_le_one hblo hbhi, ?_, ?_⟩
  · rw [hxe]; rfl
  · intro hall
    have hne : poolVecScores s sim qemb p ≠ [] := by
      intro hnil
      rw [hnil] at hvmem
      exact absurd hvmem (List.not_mem_nil _)
    exact minmaxNorm_const (hall _ (listMax_mem hne) _ (listMin_mem hne))
  · intro hall
    have hne : poolLexScores s sim lexScore qemb p ≠ [] := by
      intro hnil
      rw [hnil] at hbmem
      exact absurd hbmem (List.not_mem_nil _)
    exact minmaxNorm_const (hall _ (listMax_mem hne) _ (listMin_mem hne))

/-- C8: a non-positive `top_k` makes `query` fail with `InvalidArgument`,
while an empty candidate pool — an empty corpus, or every candidate's raw
similarity below the threshold — makes it return the empty result, not an
error. -/
theorem query_edge_cases (s : CoreState) (sim : List ℚ → List ℚ → ℚ)
    (lexScore : ℕ → ℚ) (qemb : List ℚ) (p : QueryParams) :
    (p.top_k ≤ 0 → query s sim lexScore qemb p = .error .InvalidArgument) ∧
    (0 < p.top_k →
      (s.vec = [] ∨ ∀ v ∈ s.vec, sim qemb v.2 < p.similarity_threshold) →
      query s sim lexScore qemb p = .ok []) := by
  constructor
  · intro h
    unfold query
    rw [if_pos h]
  · intro hpos hempty
    have hpool : candidatePool s sim qemb p = [] := by
      rcases hempty with h | h
      · unfold candidatePool vectorSearch
        rw [h]
        simp [List.insertionSort]
      · refine List.eq_nil_iff_forall_not_mem.mpr (fun e he => ?_)
        obtain ⟨⟨v, hv, hv1, hv2⟩, hthr⟩ := candidatePool_subset he
        rw [← hv2] at hthr
        exact absurd hthr (not_le.mpr (h v hv))
    have hent : rankedEntries s sim lexScore qemb p = [] := by
      unfold rankedEntries
      rw [hpool]
      rfl
    unfold query
    rw [if_neg (by omega), hent]
    simp [List.insertionSort]

/-- Witness for C1: a one-chunk corpus, threshold one half, similarity 1. -/
theorem threshold_gate_witness :
    (exOtherState.vec.map Prod.fst).Nodup ∧
    query exOtherState exSim exLex [1] exParams = .ok exRes ∧
    ((∀ x ∈ exRes, ∃ v ∈ exOtherState.vec, v.1 = x.chunk_id ∧
        exSim [1] v.2 = x.vector_score ∧
        exParams.similarity_threshold ≤ x.vector_score) ∧
      (∀ v ∈ exOtherState.vec, exSim [1] v.2 < exParams.similarity_threshold →
        ∀ x ∈ exRes, x.chunk_id ≠ v.1)) :=
  ⟨by decide, by with_unfolding_all decide,
    threshold_gate exOtherState exSim exLex [1] exParams exRes (by decide)
      (by with_unfolding_all decide)⟩

/-- Witness for C2: the same example query. -/
theorem ranked_result_shape_witness :
    (exOtherState.vec.map Prod.fst).Nodup ∧
    query exOtherState exSim exLex [1] exParams = .ok exRes ∧
    ((exRes.length : ℤ) ≤ exParams.top_k ∧ (exRes.map ResultEntry.chunk_id).Nodup ∧
      exRes.Pairwise entryLT) :=
  ⟨by decide, by with_unfolding_all decide,
    ranked_result_shape exOtherState exSim exLex [1] exParams exRes
      (by decide) (by with_unfolding_all decide)⟩

/-- Witness for C3: the same example query. -/
theorem combined_score_normalization_witness :
    query exOtherState exSim exLex [1] exParams = .ok exRes ∧
    (∀ x ∈ exRes,
      x.combined_score =
        exParams.vector_weight * minmaxNorm (listMin (poolVecScores exOtherState exSim [1] exParams))
          (listMax (poolVecScores exOtherState exSim [1] exParams)) x.vector_score +
        exParams.bm25_weight * minmaxNorm (listMin (poolLexScores exOtherState exSim exLex [1] exParams))
          (listMax (poolLexScores exOtherState exSim exLex [1] exParams)) x.bm25_score ∧
      0 ≤ minmaxNorm (listMin (poolVecScores exOtherState exSim [1] exParams))
        (listMax (poolVecScores exOtherState exSim [1] exParams)) x.vector_score ∧
      minmaxNorm (listMin (poolVecScores exOtherState exSim [1] exParams))
        (listMax (poolVecScores exOtherState exSim [1] exParams)) x.vector_score ≤ 1 ∧
      0 ≤ minmaxNorm (listMin (poolLexScores exOtherState exSim exLex [1] exParams))
        (listMax (poolLexScores exOtherState exSim exLex [1] exParams)) x.bm25_score ∧
      minmaxNorm (listMin (poolLexScores exOtherState exSim exLex [1] exParams))
        (listMax (poolLexScores exOtherState exSim exLex [1] exParams)) x.bm25_score ≤ 1 ∧
      ((∀ a ∈ poolVecScores exOtherState exSim [1] exParams,
          ∀ b ∈ poolVecScores exOtherState exSim [1] exParams, a = b) →
        minmaxNorm (listMin (poolVecScores exOtherState exSim [1] exParams))
          (listMax (poolVecScores exOtherState exSim [1] exParams)) x.vector_score = 1) ∧
      ((∀ a ∈ poolLexScores exOtherState exSim exLex [1] exParams,
          ∀ b ∈ poolLexScores exOtherState exSim exLex [1] exParams, a = b) →
        minmaxNorm (listMin (poolLexScores exOtherState exSim exLex [1] exParams))
          (listMax (poolLexScores exOtherState exSim exLex [1] exParams)) x.bm25_score = 1)) :=
  ⟨by with_unfolding_all decide,
    combined_score_normalization exOtherState exSim exLex [1] exParams exRes
      (by with_unfolding_all decide)⟩

/-- Witness for C8: a zero `top_k` query and an all-below-threshold query. -/
theorem query_edge_cases_witness :
    query emptyState exSim exLex [] ⟨0, 1, 2, 1⟩ = .error .InvalidArgument ∧
    query exOtherState exSim exLex [1] ⟨2, 1, 2, 2⟩ = .ok [] :=
  ⟨(query_edge_cases emptyState exSim exLex [] ⟨0, 1, 2, 1⟩).1 (by decide),
   (query_edge_cases exOtherState exSim exLex [1] ⟨2, 1, 2, 2⟩).2 (by decide)
     (Or.inr (by decide))⟩


theorem foldl_add_eq_sum (f : String → ℝ) (l : List String) (init : ℝ) :
    l.foldl (fun acc t => acc + f t) init = init + (l.map f).sum := by
  induction l generalizing init with
  | nil => simp
  | cons a t ih => simp [ih, add_assoc]

theorem scoreChunk_eq_sum (L : List (ℕ × List String)) (k1 b : ℝ)
    (qtoks toks : List String) :
    scoreChunk L k1 b qtoks toks =
      ((qtoks.dedup.filter (fun t => decide (0 < docFreq L t))).map
        (fun t => termScore L k1 b t toks)).sum := by
  unfold scoreChunk
  rw [foldl_add_eq_sum]
  exact zero_add _

/-- C4: for every indexed chunk, the Lexical Index score mapping holds
the sum, over the deduplicated query terms present in the index, of the
BM25 contribution `idf(t) * (tf * (k1+1)) / (tf + k1 * (1 - b + b *
len/avg_len))` with `idf(t) = ln(1 + (N - df + 0.5)/(df + 0.5))`; a chunk
sharing no query term is absent from the returned mapping. -/
theorem bm25_score_characterization (L : List (ℕ × List String)) (k1 b : ℝ)
    (qtext : String) (cid : ℕ) (toks : List String)
    (hnd : (L.map Prod.fst).Nodup) (hmem : (cid, toks) ∈ L) :
    ((∃ t ∈ tokenize qtext, t ∈ toks) →
      (cid, (((tokenize qtext).dedup.filter (fun t => decide (0 < docFreq L t))).map
        (fun t =>
          Real.log (1 + ((lexN L : ℝ) - (docFreq L t : ℝ) + 1/2) /
              ((docFreq L t : ℝ) + 1/2)) *
            ((termFreq toks t : ℝ) * (k1 + 1)) /
            ((termFreq toks t : ℝ) +
              k1 * (1 - b + b * (docLen toks : ℝ) / avgLen L)))).sum) ∈
        lexIndexScore L k1 b qtext) ∧
    ((∀ t ∈ tokenize qtext, t ∉ toks) →
      cid ∉ (lexIndexScore L k1 b qtext).map Prod.fst) := by
  constructor
  · rintro ⟨t, ht, htoks⟩
    have hfil : ((tokenize qtext).any (fun u => toks.contains u)) = true :=
      List.any_eq_true.mpr ⟨t, ht, List.elem_iff.mpr htoks⟩
    have hmem2 : (cid, toks) ∈ L.filter
        (fun e => (tokenize qtext).any (fun u => e.2.contains u)) :=
      List.mem_filter.mpr ⟨hmem, hfil⟩
    unfold lexIndexScore
    refine List.mem_map.mpr ⟨(cid, toks), hmem2, ?_⟩
    show (cid, scoreChunk L k1 b (tokenize qtext) toks) = _
    rw [scoreChunk_eq_sum]
    simp only [termScore, idf]
  · intro hnone hmem2
    unfold lexIndexScore at hmem2
    rw [List.map_map] at hmem2
    obtain ⟨e, he, hee⟩ := List.mem_map.mp hmem2
    have heL : e ∈ L := (List.mem_filter.mp he).1
    have hcond := (List.mem_filter.mp he).2
    have hee2 : e = (cid, toks) := List.inj_on_of_nodup_map hnd heL hmem hee
    rw [hee2] at hcond
    obtain ⟨t, ht, htc⟩ := List.any_eq_true.mp hcond
    exact hnone t ht (List.elem_iff.mp htc)

/-- Witness for C4: a two-chunk index queried with a shared term and an
unshared one. -/
theorem bm25_score_characterization_witness :
    (exLexIndex.map Prod.fst).Nodup ∧
    ((1 : ℕ), ["cats", "are", "mammals"]) ∈ exLexIndex ∧
    (((∃ t ∈ tokenize "cats", t ∈ ["cats", "are", "mammals"]) →
      ((1 : ℕ), (((tokenize "cats").dedup.filter
          (fun t => decide (0 < docFreq exLexIndex t))).map
        (fun t =>
          Real.log (1 + ((lexN exLexIndex : ℝ) - (docFreq exLexIndex t : ℝ) + 1/2) /
              ((docFreq exLexIndex t : ℝ) + 1/2)) *
            ((termFreq ["cats", "are", "mammals"] t : ℝ) * ((12 : ℝ)/10 + 1)) /
            ((termFreq ["cats", "are", "mammals"] t : ℝ) +
              (12 : ℝ)/10 * (1 - (3 : ℝ)/4 + (3 : ℝ)/4 *
                (docLen ["cats", "are", "mammals"] : ℝ) / avgLen exLexIndex)))).sum) ∈
        lexIndexScore exLexIndex ((12 : ℝ)/10) ((3 : ℝ)/4) "cats") ∧
    ((∀ t ∈ tokenize "cats", t ∉ ["cats", "are", "mammals"]) →
      (1 : ℕ) ∉ (lexIndexScore exLexIndex ((12 : ℝ)/10) ((3 : ℝ)/4) "cats").map
        Prod.fst)) :=
  ⟨by decide, by decide,
    bm25_score_characterization exLexIndex ((12 : ℝ)/10) ((3 : ℝ)/4) "cats" 1
      ["cats", "are", "mammals"] (by decide) (by decide)⟩

end RagSpec

namespace InterfaceLayer

/-- C9: a chat request whose message field is missing or not a string is
rejected immediately — HTTP 400 with an error body on the chat endpoint,
an error callback on the socket handler — and causes no side effects:
the backend is not called and nothing is written to the cache. -/
theorem bad_message_no_side_effects (m sid sid2 : Option JValue)
    (backend : Except AxiosFailure String)
    (backend2 : Except AxiosFailure StreamAnswer) (socketId : String)
    (now now2 : ℕ) (hbad : isStringVal m = false) :
    sendMessage ⟨m, sid⟩ backend now =
      { status := 400, body := .errorMsg "Message is required"
        backendCalled := false, cacheWrites := [] } ∧
    socketMessage ⟨m, sid2⟩ backend2 socketId now2 =
      { callback := .failure "Message content is required"
        emittedMessages := [], emittedErrors := []
        backendCalled := false, cacheWrites := [] } := by
  constructor
  · cases m with
    | none => rfl
    | some v =>
      cases v with
      | jstr s => simp [isStringVal] at hbad
      | jnull => rfl
      | jbool b => rfl
      | jnum n => rfl
      | jarr => rfl
      | jobj => rfl
  · cases m with
    | none => rfl
    | some v =>
      cases v with
      | jstr s => simp [isStringVal] at hbad
      | jnull => rfl
      | jbool b => rfl
      | jnum n => rfl
      | jarr => rfl
      | jobj => rfl

/-- Witness for C9: a numeric (non-string) message field. -/
theorem bad_message_no_side_effects_witness :
    isStringVal (some (.jnum 5)) = false ∧
    (sendMessage ⟨some (.jnum 5), none⟩ (.ok "answer") 17 =
      { status := 400, body := .errorMsg "Message is required"
        backendCalled := false, cacheWrites := [] } ∧
    socketMessage ⟨some (.jnum 5), none⟩ (.ok ⟨"answer", []⟩) "sock" 17 =
      { callback := .failure "Message content is required"
        emittedMessages := [], emittedErrors := []
        backendCalled := false, cacheWrites := [] }) :=
  ⟨by decide,
    bad_message_no_side_effects (some (.jnum 5)) none none (.ok "answer")
      (.ok ⟨"answer", []⟩) "sock" 17 17 (by decide)⟩

/-- C10: the history returned by the chat-history handler is sorted in
non-decreasing timestamp order, whatever order the cache scan returned
the entries in. -/
theorem chat_history_sorted (fetched : List (Option HistoryEntry)) :
    (getChatHistory fetched).Pairwise tsLE := by
  unfold getChatHistory
  exact List.sorted_insertionSort tsLE _

end InterfaceLayer
